import Mathlib

/-!
# Skripture: environment resolution and shell launch

A shallow embedding of `cmd/skripture/main.go`.

* Go strings are Lean `String`s; a Go `map[string]string` is a finite map with
  distinct keys (`GoMap`); a `nil` map is `none`.
* A function that can end the process (an unrecovered panic, `os.Exit`, a
  successful `syscall.Exec`) runs in `Run`, whose exception is the way the
  process ended. The program has no `recover`, so a panic always reaches the top.
* The collaborators of the program (host environment, platform, cluster API,
  executable lookup, process replacement, child processes) are the fields of
  `World`.
* Log output and the signal-forwarding goroutine of `execCmd` are not modelled.
-/

namespace Skripture

/-- A Go `map[string]string` that is not `nil`: a finite map with distinct keys.
`range` over the map is modelled as the traversal of `entries`; Go leaves that
order unspecified. -/
abbrev GoMap := AList (fun _ : String => String)

/-- A Go `[]byte`. -/
abbrev Bytes := List Nat

/-- A Go `map[string][]byte` that is not `nil` (the `Data` of a `v1.Secret`). -/
abbrev ByteMap := AList (fun _ : String => Bytes)

/-- The fields of `v1.EnvVar` the program reads. -/
structure EnvVar where
  Name : String
  Value : String
deriving DecidableEq, Repr

/-- The fields of `v1.EnvFromSource` the program reads: each reference is `nil`
(`none`) or carries the name of the referenced object. -/
structure EnvFromSource where
  ConfigMapRef : Option String
  SecretRef : Option String
deriving DecidableEq, Repr

/-- The fields of `v1.Container` the program reads. -/
structure Container where
  Name : String
  Env : List EnvVar
  EnvFrom : List EnvFromSource
deriving DecidableEq, Repr

/-- A `v1.Pod`, reduced to `pod.Spec.Containers`. -/
structure Pod where
  Containers : List Container
deriving DecidableEq, Repr

/-- The ways the process can end. -/
inductive Outcome where
  /-- An unrecovered `panic(msg)`: the Go runtime prints it and exits with status 2. -/
  | panicked (msg : String)
  /-- A call of `os.Exit(code)` (also through `log.Fatalln`, with code 1). -/
  | exited (code : Nat)
  /-- A successful `syscall.Exec(argv0, argv, envv)`: the process image is replaced. -/
  | replaced (argv0 : String) (argv : List String) (envv : List String)
  /-- Function `main` ran to its end, so the exit status is 0; `dropped` is the
  `error` value `openShell` returned, which `main` discards. -/
  | returned (dropped : Option String)
deriving DecidableEq, Repr

/-- The exit status of the Go process, when it has one of its own. -/
def Outcome.exitStatus : Outcome → Option Nat
  | .panicked _ => some 2
  | .exited code => some code
  | .replaced _ _ _ => none
  | .returned _ => some 0

/-- A computation that may end the process. -/
abbrev Run := Except Outcome

/-- The result of `cmd.Start()` succeeding: what `cmd.Wait()` then reports. -/
structure Child where
  waitErr : Option String
  exitStatus : Nat

/-- The collaborators of the program. -/
structure World where
  /-- The process environment (`os.LookupEnv`). -/
  environ : String → Option String
  /-- The value of `runtime.GOOS`. -/
  goos : String
  /-- The error of `clientcmd.BuildConfigFromFlags("", kubeconfig)`, if any. -/
  buildConfig : String → Option String
  /-- The error of `kubernetes.NewForConfig(config)`, if any. -/
  newForConfig : Option String
  /-- `Pods(namespace).List(..., LabelSelector: selector)`: an error or `pods.Items`. -/
  listPods : String → String → Except String (List Pod)
  /-- `ConfigMaps(namespace).Get(..., name, ...)`: an error or `configMap.Data`. -/
  configMaps : String → String → Except String GoMap
  /-- `Secrets(namespace).Get(..., name, ...)`: an error or `secret.Data`. -/
  secrets : String → String → Except String ByteMap
  /-- The conversion `string(b)` of a byte slice. -/
  stringOfBytes : Bytes → String
  /-- `execabs.LookPath(command)`. -/
  lookPath : String → Except String String
  /-- The error of `syscall.Exec(argv0, argv, envv)`; `none` when the image is replaced. -/
  execErr : String → List String → List String → Option String
  /-- `cmd.Start()` for `command`, `args` and `env`: an error or the started child. -/
  startChild : String → List String → List String → Except String Child

/-- Go's `os.Getenv`: the value of the variable, or the empty string when it is unset. -/
def World.Getenv (w : World) (key : String) : String :=
  (w.environ key).getD ""

/-- Type `envKV` (main.go 30-33). -/
structure envKV where
  Keys : List String
  Data : Option GoMap

/-- Type `ctx` (main.go 23-28); the `Clientset` is the cluster API of `World`. -/
structure ctx where
  Containers : List Container
  Namespace : String
  Env : envKV

/-- The command-line flags read by `main`. -/
structure Flags where
  kubeconfig : String
  podSelector : String
  Namespace : String

/-- Method `envKV.set` (main.go 35-38), pointer receiver: append the key to
`Keys`, then assign in `Data`. Assignment to an entry of a `nil` map panics. -/
def envKV.set (e : envKV) (key : String) (value : String) : Run envKV :=
  let keys := e.Keys ++ [key]
  match e.Data with
  | none => throw (.panicked "assignment to entry in nil map")
  | some m => pure { Keys := keys, Data := some (m.insert key value) }

/-- Method `envKV.setFromHost` (main.go 40-42), VALUE receiver: `set` runs on a
copy of the struct. The copy shares the map with the caller, so the assignment
to `Data` is seen by the caller; the slice header `Keys` of the copy is its
own, so the caller's `Keys` stays as it was. The result is the caller's
struct after the call. -/
def envKV.setFromHost (w : World) (e : envKV) (key : String) : Run envKV := do
  let copy ← e.set key (w.Getenv key)
  pure { Keys := e.Keys, Data := copy.Data }

/-- Method `envKV.toStringList` (main.go 45-51): one string per entry of `Data`
(`range` over a `nil` map runs no iteration). -/
def envKV.toStringList (e : envKV) : List String :=
  match e.Data with
  | none => []
  | some m => m.entries.map (fun kv => kv.1 ++ "=" ++ kv.2)

/-- Method `envKV.initialize` (main.go 53-61), pointer receiver. -/
def envKV.initialize (w : World) (_e : envKV) : Run envKV := do
  let e : envKV := { Keys := [], Data := some ∅ }
  let e ← envKV.setFromHost w e "TERM"
  envKV.setFromHost w e "LANG"

/-- Function `supportsExecSyscall` (main.go 160-162). -/
def supportsExecSyscall (w : World) : Bool :=
  w.goos == "linux" || w.goos == "darwin" || w.goos == "freebsd" || w.goos == "openbsd"

/-- Function `execCmd` (main.go 127-158); its result is the returned `error`. -/
def execCmd (w : World) (command : String) (args : List String) (env : List String) :
    Run (Option String) :=
  match w.startChild command args env with
  | .error err => pure (some err)
  | .ok child =>
    match child.waitErr with
    | some err => pure (some ("failed to wait for command termination: " ++ err))
    | none => throw (.exited child.exitStatus)

/-- Function `execSyscall` (main.go 164-179); its result is the returned `error`. -/
def execSyscall (w : World) (command : String) (args : List String) (env : List String) :
    Run (Option String) :=
  match w.lookPath command with
  | .error err => pure (some ("couldn't find the executable '" ++ command ++ "': " ++ err))
  | .ok argv0 =>
    let argv := [command] ++ args
    match w.execErr argv0 argv env with
    | some err => pure (some err)
    | none => throw (.replaced argv0 argv env)

/-- Function `openShell` (main.go 117-125); its result is the returned `error`. -/
def openShell (w : World) (args : List String) (env : envKV) : Run (Option String) :=
  let args := args ++ ["-i"]
  let args := args ++ ["-s"]
  if !supportsExecSyscall w then
    execCmd w (w.Getenv "SHELL") args env.toStringList
  else
    execSyscall w (w.Getenv "SHELL") args env.toStringList

/-- Method `ctx.getPods` (main.go 181-189): an error of the listing gives no pods. -/
def ctx.getPods (w : World) (c : ctx) (labelSelector : String) : List Pod :=
  match w.listPods c.Namespace labelSelector with
  | .error _ => []
  | .ok items => items

/-- Method `ctx.getContainers` (main.go 191-196). -/
def ctx.getContainers (c : ctx) (pod : Pod) : ctx :=
  { c with Containers := c.Containers ++ pod.Containers }

/-- Method `ctx.getLocalEnv` (main.go 198-203). -/
def ctx.getLocalEnv (c : ctx) (container : Container) : Run ctx :=
  container.Env.foldlM
    (fun c e => do
      let env ← c.Env.set e.Name e.Value
      pure { c with Env := env })
    c

/-- Method `ctx.getConfigMap` (main.go 227-235). -/
def ctx.getConfigMap (w : World) (c : ctx) (cm : String) : Run GoMap :=
  match w.configMaps c.Namespace cm with
  | .error err => throw (.panicked err)
  | .ok data => pure data

/-- Method `ctx.getSecret` (main.go 237-251). -/
def ctx.getSecret (w : World) (c : ctx) (s : String) : Run GoMap :=
  match w.secrets c.Namespace s with
  | .error err => throw (.panicked err)
  | .ok data =>
    pure (data.entries.foldl (fun env kv => env.insert kv.1 (w.stringOfBytes kv.2)) ∅)

/-- The loops `for key, value := range m { c.Env.set(key, value) }` of
`getExternalConfig` (main.go 214-216 and 220-222). -/
def ctx.setEach (c : ctx) (m : GoMap) : Run ctx :=
  m.entries.foldlM
    (fun c kv => do
      let env ← c.Env.set kv.1 kv.2
      pure { c with Env := env })
    c

/-- Method `ctx.getExternalConfig` (main.go 205-225). -/
def ctx.getExternalConfig (w : World) (c : ctx) (container : Container) : Run ctx :=
  container.EnvFrom.foldlM
    (fun c foreignEnv => do
      let c ← match foreignEnv.ConfigMapRef with
        | none => pure c
        | some cm => do
          let m ← c.getConfigMap w cm
          c.setEach m
      match foreignEnv.SecretRef with
        | none => pure c
        | some s => do
          let m ← c.getSecret w s
          c.setEach m)
    c

/-- The resolution loop of `main` (main.go 106-112): every pod appends its
containers to `ctx.Containers`, and then the WHOLE accumulated list is processed. -/
def ctx.resolve (w : World) (c : ctx) (pods : List Pod) : Run ctx :=
  pods.foldlM
    (fun c pod => do
      let c := c.getContainers pod
      c.Containers.foldlM
        (fun c container => do
          let c ← c.getExternalConfig w container
          c.getLocalEnv container)
        c)
    c

/-- The `ctx` literal of `main` (main.go 91-95): no containers yet, and `Env`
with its zero value (`nil` slice, `nil` map). -/
def startCtx (flags : Flags) : ctx :=
  { Containers := [], Namespace := flags.Namespace, Env := { Keys := [], Data := none } }

/-- Function `main` (main.go 63-115), from the parsed flags on, up to the call
of `openShell`: the result is the `error` that `openShell` returns. -/
def mainBody (w : World) (flags : Flags) : Run (Option String) := do
  match w.buildConfig flags.kubeconfig with
  | some err => throw (.panicked err)
  | none => pure ()
  match w.newForConfig with
  | some err => throw (.panicked err)
  | none => pure ()
  let c : ctx := startCtx flags
  let pods := c.getPods w flags.podSelector
  if pods.length = 0 then
    throw (.exited 1)
  let env ← envKV.initialize w c.Env
  let c := { c with Env := env }
  let c ← c.resolve w pods
  openShell w [] c.Env

/-- Function `main` (main.go 63-115): how the process ends. The `error`
returned by `openShell` is discarded and `main` returns. -/
def main (w : World) (flags : Flags) : Outcome :=
  match mainBody w flags with
  | .error o => o
  | .ok dropped => .returned dropped

/-! ## Definitions used to state the properties -/

/-- A sequence of calls `set(name, value)` on one `envKV`, in order. -/
def envKV.setMany (e : envKV) (calls : List (String × String)) : Run envKV :=
  calls.foldlM (fun e kv => e.set kv.1 kv.2) e

/-- The map assignments `m[name] = value` of a sequence of writes, in order. -/
def insertAll (m : GoMap) (ws : List (String × String)) : GoMap :=
  ws.foldl (fun m kv => m.insert kv.1 kv.2) m

/-- The value of the most recent write to `key` in a sequence of writes, if
the sequence writes `key` at all. -/
def lastSet : List (String × String) → String → Option String
  | [], _ => none
  | kv :: rest, key => (lastSet rest key).or (if kv.1 = key then some kv.2 else none)

/-- The text `toStringList` produces for an entry. -/
def entryText (kv : String × String) : String :=
  kv.1 ++ "=" ++ kv.2

/-- The entries of a map as pairs, in the order of `range`. -/
def pairs (m : GoMap) : List (String × String) :=
  m.entries.map (fun kv => (kv.1, kv.2))

/-- The map a successful `getConfigMap` returns (empty when the fetch fails,
a case in which `getConfigMap` panics instead of returning). -/
def World.configMapData (w : World) (ns : String) (name : String) : GoMap :=
  match w.configMaps ns name with
  | .ok data => data
  | .error _ => ∅

/-- The map a successful `getSecret` returns (empty when the fetch fails, a
case in which `getSecret` panics instead of returning). -/
def World.secretData (w : World) (ns : String) (name : String) : GoMap :=
  match w.secrets ns name with
  | .ok data => data.entries.foldl (fun env kv => env.insert kv.1 (w.stringOfBytes kv.2)) ∅
  | .error _ => ∅

/-- Both fetches of one `EnvFrom` entry succeed, as far as the entry has references. -/
def EnvFromSource.fetchable (w : World) (ns : String) (r : EnvFromSource) : Bool :=
  (match r.ConfigMapRef with
    | none => true
    | some cm => (w.configMaps ns cm).toBool) &&
  (match r.SecretRef with
    | none => true
    | some s => (w.secrets ns s).toBool)

/-- A fetch of one `EnvFrom` entry fails. -/
def EnvFromSource.fetchFails (w : World) (ns : String) (r : EnvFromSource) : Bool :=
  !(r.fetchable w ns)

/-- Every fetch for the `EnvFrom` list of the container succeeds. -/
def Container.fetchable (w : World) (ns : String) (container : Container) : Bool :=
  container.EnvFrom.all (fun r => r.fetchable w ns)

/-- The writes the ConfigMap reference of one `EnvFrom` entry causes when its
fetch succeeds. -/
def configMapWrites (w : World) (ns : String) (r : EnvFromSource) : List (String × String) :=
  match r.ConfigMapRef with
  | none => []
  | some cm => pairs (w.configMapData ns cm)

/-- The writes the Secret reference of one `EnvFrom` entry causes when its fetch
succeeds. -/
def secretWrites (w : World) (ns : String) (r : EnvFromSource) : List (String × String) :=
  match r.SecretRef with
  | none => []
  | some s => pairs (w.secretData ns s)

/-- The writes one `EnvFrom` entry causes when its fetches succeed: the entries
of the ConfigMap, then the entries of the Secret. -/
def refWrites (w : World) (ns : String) (r : EnvFromSource) : List (String × String) :=
  configMapWrites w ns r ++ secretWrites w ns r

/-- The writes of `getExternalConfig` for a container whose fetches succeed. -/
def externalWrites (w : World) (ns : String) (container : Container) : List (String × String) :=
  container.EnvFrom.flatMap (refWrites w ns)

/-- The writes of `getLocalEnv` for a container: its inline declarations, in order. -/
def localWrites (container : Container) : List (String × String) :=
  container.Env.map (fun e => (e.Name, e.Value))

/-- The writes of processing a container (`getExternalConfig`, then `getLocalEnv`). -/
def containerWrites (w : World) (ns : String) (container : Container) : List (String × String) :=
  externalWrites w ns container ++ localWrites container

/-- The container declares `name` inline with `value`: of its declarations of
`name`, the last one has that value. A container that declares `name` once, or
always with the same value, declares it so (`declares_of_mem`). -/
def Container.declares (container : Container) (name : String) (value : String) : Prop :=
  lastSet (localWrites container) name = some value

/-- Processing the container writes `name` (from a reference or inline). -/
def Container.supplies (w : World) (ns : String) (container : Container) (name : String) : Prop :=
  name ∈ (containerWrites w ns container).map Prod.fst

/-- The processing of one container in the loop of `main` (main.go 109-110). -/
def ctx.processContainer (w : World) (c : ctx) (container : Container) : Run ctx := do
  let c ← c.getExternalConfig w container
  c.getLocalEnv container

/-- Every container of every pod processed exactly once, in pod order and then
container order. -/
def ctx.resolveOnce (w : World) (c : ctx) (pods : List Pod) : Run ctx :=
  (pods.flatMap Pod.Containers).foldlM (fun c container => c.processContainer w container) c

instance (container : Container) (name value : String) :
    Decidable (container.declares name value) := by
  unfold Container.declares; infer_instance

instance (w : World) (ns : String) (container : Container) (name : String) :
    Decidable (container.supplies w ns name) := by
  unfold Container.supplies; infer_instance

/-- The context after a sequence of writes, made through `set`, on a set whose
map was `m`: the names are appended to `Keys`, the map receives the writes. -/
def ctx.written (c : ctx) (m : GoMap) (ws : List (String × String)) : ctx :=
  { c with Env := { Keys := c.Env.Keys ++ ws.map Prod.fst, Data := some (insertAll m ws) } }

/-- The writes of the loop of `main` when every fetch succeeds: with `acc` the
containers accumulated so far, each pod adds its containers to `acc` and the
whole of `acc` is processed. -/
def resolveWrites (w : World) (ns : String) :
    List Container → List Pod → List (String × String)
  | _, [] => []
  | acc, pod :: pods =>
    (acc ++ pod.Containers).flatMap (containerWrites w ns) ++
      resolveWrites w ns (acc ++ pod.Containers) pods

/-- The map `initialize` builds: empty, then `TERM` and `LANG` assigned from the host. -/
def seededMap (w : World) : GoMap :=
  ((∅ : GoMap).insert "TERM" (w.Getenv "TERM")).insert "LANG" (w.Getenv "LANG")

/-- The context of `main` once `initialize` has run, as `initialize_ok` computes it. -/
def seededCtx (w : World) (flags : Flags) : ctx :=
  { Containers := [], Namespace := flags.Namespace, Env := { Keys := [], Data := some (seededMap w) } }

/-! ## Example scenarios -/

/-- A Linux host with `TERM=xterm` and `SHELL=/bin/zsh`, without `LANG`, on which
no executable is found. Its cluster has the ConfigMaps `base` (`A=0`), `one`
(`A=1`) and `two` (`A=2`), the Secret `creds`, and the given pods. -/
def demoWorld (pods : List Pod) : World where
  environ := fun key =>
    if key = "TERM" then some "xterm" else if key = "SHELL" then some "/bin/zsh" else none
  goos := "linux"
  buildConfig := fun _ => none
  newForConfig := none
  listPods := fun _ _ => .ok pods
  configMaps := fun _ name =>
    if name = "base" then .ok (AList.singleton "A" "0")
    else if name = "one" then .ok (AList.singleton "A" "1")
    else if name = "two" then .ok (AList.singleton "A" "2")
    else .error "configmap not found"
  secrets := fun _ name =>
    if name = "creds" then .ok (AList.singleton "TOKEN" [115, 51])
    else .error "secret not found"
  stringOfBytes := fun b => String.mk (b.map Char.ofNat)
  lookPath := fun _ => .error "executable file not found in $PATH"
  execErr := fun _ _ _ => none
  startChild := fun _ _ _ => .error "fork/exec failed"

/-- The flags `-pod-selector app=web`, with the default namespace. -/
def demoFlags : Flags :=
  { kubeconfig := "/home/op/.kube/config", podSelector := "app=web", Namespace := "default" }

/-- A container that declares `A=1` inline and references the ConfigMap `base`. -/
def webContainer : Container :=
  { Name := "web", Env := [⟨"A", "1"⟩], EnvFrom := [⟨some "base", none⟩] }

/-- A container that declares `A=2` inline and has no reference. -/
def sidecarContainer : Container :=
  { Name := "sidecar", Env := [⟨"A", "2"⟩], EnvFrom := [] }

/-- A container that references the ConfigMaps `one` and `two`, in this order,
and declares `B=x` inline. -/
def layeredContainer : Container :=
  { Name := "layered", Env := [⟨"B", "x"⟩],
    EnvFrom := [⟨some "one", none⟩, ⟨some "two", none⟩] }

/-- A container with three references, of which the second (a Secret) does not exist. -/
def brokenContainer : Container :=
  { Name := "broken", Env := [⟨"FOO", "bar"⟩],
    EnvFrom := [⟨some "one", none⟩, ⟨none, some "missing"⟩, ⟨some "two", none⟩] }

/-- A container with one inline declaration and no reference. -/
def plainContainer : Container :=
  { Name := "app", Env := [⟨"FOO", "bar"⟩], EnvFrom := [] }

/-- An initialised set without entries. -/
def emptySet : envKV :=
  { Keys := [], Data := some ∅ }

/-- A context in the namespace `default` with an initialised, empty set. -/
def emptyCtx : ctx :=
  { Containers := [], Namespace := "default", Env := emptySet }

/-! ## Sequences of writes -/

theorem insertAll_nil (m : GoMap) : insertAll m [] = m := rfl

theorem insertAll_cons (m : GoMap) (kv : String × String) (ws : List (String × String)) :
    insertAll m (kv :: ws) = insertAll (m.insert kv.1 kv.2) ws := rfl

theorem insertAll_append (m : GoMap) (ws ws2 : List (String × String)) :
    insertAll m (ws ++ ws2) = insertAll (insertAll m ws) ws2 := by
  simp [insertAll, List.foldl_append]

theorem lastSet_eq_none_iff (ws : List (String × String)) (key : String) :
    lastSet ws key = none ↔ key ∉ ws.map Prod.fst := by
  induction ws with
  | nil => simp [lastSet]
  | cons kv rest ih =>
    simp only [lastSet, Option.or_eq_none, ih, List.map_cons, List.mem_cons, not_or]
    constructor
    · rintro ⟨h1, h2⟩
      refine ⟨fun hk => ?_, h1⟩
      simp [hk] at h2
    · rintro ⟨h1, h2⟩
      refine ⟨h2, ?_⟩
      simp [Ne.symm h1]

theorem lastSet_append (ws ws2 : List (String × String)) (key : String) :
    lastSet (ws ++ ws2) key = (lastSet ws2 key).or (lastSet ws key) := by
  induction ws with
  | nil => simp [lastSet]
  | cons kv rest ih =>
    show (lastSet (rest ++ ws2) key).or _ = (lastSet ws2 key).or ((lastSet rest key).or _)
    rw [ih, Option.or_assoc]

theorem lookup_insertAll (m : GoMap) (ws : List (String × String)) (key : String) :
    (insertAll m ws).lookup key = (lastSet ws key).or (m.lookup key) := by
  induction ws generalizing m with
  | nil => simp [insertAll, lastSet]
  | cons kv rest ih =>
    rw [insertAll_cons, ih]
    simp only [lastSet, Option.or_assoc]
    congr 1
    by_cases hk : kv.1 = key
    · subst hk; simp [AList.lookup_insert]
    · simp [hk, AList.lookup_insert_ne (Ne.symm hk)]

/-- In the entries of a map, the last (and only) write to a name is its value in the map. -/
theorem lastSet_entries (l : List (Sigma (fun _ : String => String))) (hl : l.NodupKeys)
    (key : String) :
    lastSet (l.map (fun kv => (kv.1, kv.2))) key = l.dlookup key := by
  induction l with
  | nil => simp [lastSet]
  | cons kv rest ih =>
    obtain ⟨k1, v1⟩ := kv
    rw [List.nodupKeys_cons] at hl
    simp only [List.map_cons, lastSet, ih hl.2]
    by_cases hk : k1 = key
    · subst hk
      simp [List.dlookup_cons_eq, List.dlookup_eq_none.mpr hl.1]
    · have hne : key ≠ (⟨k1, v1⟩ : Sigma (fun _ : String => String)).1 := fun h => hk h.symm
      simp [hk, List.dlookup_cons_ne rest _ hne]

theorem lastSet_pairs (d : GoMap) (key : String) : lastSet (pairs d) key = d.lookup key :=
  lastSet_entries d.entries d.nodupKeys key

/-! ## The methods on an initialised set -/

theorem set_ok (e : envKV) (m : GoMap) (key value : String) (h : e.Data = some m) :
    e.set key value = .ok { Keys := e.Keys ++ [key], Data := some (m.insert key value) } := by
  simp [envKV.set, h, pure, Except.pure]

theorem written_nil (c : ctx) (m : GoMap) (h : c.Env.Data = some m) : c.written m [] = c := by
  obtain ⟨cs, ns, ⟨keys, data⟩⟩ := c
  simp only at h
  simp [ctx.written, insertAll, h]

theorem written_written (c : ctx) (m : GoMap) (ws ws2 : List (String × String)) :
    (c.written m ws).written (insertAll m ws) ws2 = c.written m (ws ++ ws2) := by
  simp [ctx.written, insertAll_append]

theorem written_data (c : ctx) (m : GoMap) (ws : List (String × String)) :
    (c.written m ws).Env.Data = some (insertAll m ws) := rfl

theorem written_namespace (c : ctx) (m : GoMap) (ws : List (String × String)) :
    (c.written m ws).Namespace = c.Namespace := rfl

theorem written_containers (c : ctx) (m : GoMap) (ws : List (String × String)) :
    (c.written m ws).Containers = c.Containers := rfl

/-- A loop that calls `c.Env.set` once per element succeeds on an initialised
set and performs the writes in order. -/
theorem foldlM_set_ok {α : Type} (name value : α → String) (l : List α) (c : ctx) (m : GoMap)
    (h : c.Env.Data = some m) :
    l.foldlM
        (fun (c : ctx) x => do
          let env ← c.Env.set (name x) (value x)
          pure ({ c with Env := env } : ctx))
        c
      = (.ok (c.written m (l.map (fun x => (name x, value x)))) : Run ctx) := by
  induction l generalizing c m with
  | nil => simp [written_nil c m h, pure, Except.pure]
  | cons x rest ih =>
    rw [List.foldlM_cons, set_ok c.Env m _ _ h]
    have step := ih (c.written m [(name x, value x)]) (insertAll m [(name x, value x)]) rfl
    rw [written_written] at step
    simpa [bind, Except.bind, pure, Except.pure, ctx.written] using step

theorem getLocalEnv_ok (c : ctx) (m : GoMap) (container : Container)
    (h : c.Env.Data = some m) :
    c.getLocalEnv container = .ok (c.written m (localWrites container)) := by
  unfold ctx.getLocalEnv localWrites
  exact foldlM_set_ok EnvVar.Name EnvVar.Value container.Env c m h

theorem setEach_ok (c : ctx) (m d : GoMap) (h : c.Env.Data = some m) :
    c.setEach d = .ok (c.written m (pairs d)) := by
  unfold ctx.setEach pairs
  exact foldlM_set_ok (fun kv : Sigma (fun _ : String => String) => kv.1) (fun kv => kv.2)
    d.entries c m h

/-- A loop whose step performs a list of writes performs the writes of all steps. -/
theorem foldlM_written {α : Type} (step : ctx → α → Run ctx) (wr : α → List (String × String))
    (good : α → Prop) (ns : String)
    (hstep : ∀ (c : ctx) (m : GoMap) (x : α), c.Namespace = ns → good x → c.Env.Data = some m →
      step c x = .ok (c.written m (wr x)))
    (l : List α) (c : ctx) (m : GoMap) (hns : c.Namespace = ns) (hgood : ∀ x ∈ l, good x)
    (h : c.Env.Data = some m) :
    l.foldlM step c = .ok (c.written m (l.flatMap wr)) := by
  induction l generalizing c m with
  | nil => simp [written_nil c m h, pure, Except.pure]
  | cons x rest ih =>
    rw [List.foldlM_cons, hstep c m x hns (hgood x (List.mem_cons_self _ _)) h]
    have step2 := ih (c.written m (wr x)) (insertAll m (wr x)) hns
      (fun y hy => hgood y (List.mem_cons_of_mem _ hy)) rfl
    rw [written_written] at step2
    simpa [bind, Except.bind] using step2

theorem getConfigMap_ok (w : World) (c : ctx) (cm : String)
    (h : (w.configMaps c.Namespace cm).toBool = true) :
    c.getConfigMap w cm = .ok (w.configMapData c.Namespace cm) := by
  unfold ctx.getConfigMap World.configMapData
  cases hf : w.configMaps c.Namespace cm with
  | error err => simp [hf, Except.toBool] at h
  | ok data => simp [pure, Except.pure]

theorem getSecret_ok (w : World) (c : ctx) (s : String)
    (h : (w.secrets c.Namespace s).toBool = true) :
    c.getSecret w s = .ok (w.secretData c.Namespace s) := by
  unfold ctx.getSecret World.secretData
  cases hf : w.secrets c.Namespace s with
  | error err => simp [hf, Except.toBool] at h
  | ok data => simp [pure, Except.pure]

/-- One iteration of the loop of `getExternalConfig` (main.go 211-223). -/
theorem envFrom_step_ok (w : World) (c : ctx) (m : GoMap) (r : EnvFromSource)
    (hf : r.fetchable w c.Namespace = true) (h : c.Env.Data = some m) :
    (do
      let c ← match r.ConfigMapRef with
        | none => pure c
        | some cm => do
          let d ← c.getConfigMap w cm
          c.setEach d
      match r.SecretRef with
        | none => pure c
        | some s => do
          let d ← c.getSecret w s
          c.setEach d : Run ctx)
      = .ok (c.written m (refWrites w c.Namespace r)) := by
  obtain ⟨cmRef, sRef⟩ := r
  simp only [EnvFromSource.fetchable, Bool.and_eq_true] at hf
  obtain ⟨hcm, hs⟩ := hf
  cases cmRef with
  | none =>
    cases sRef with
    | none =>
      simp [refWrites, configMapWrites, secretWrites, written_nil c m h, pure, Except.pure, bind,
        Except.bind]
    | some s =>
      simp only at hs
      simp [refWrites, configMapWrites, secretWrites, pure, Except.pure, bind, Except.bind,
        getSecret_ok w c s hs, setEach_ok c m _ h]
  | some cm =>
    simp only at hcm
    cases sRef with
    | none =>
      simp [refWrites, configMapWrites, secretWrites, pure, Except.pure, bind, Except.bind,
        getConfigMap_ok w c cm hcm, setEach_ok c m _ h]
    | some s =>
      simp only at hs
      have hs2 : (w.secrets (c.written m (pairs (w.configMapData c.Namespace cm))).Namespace s).toBool
          = true := hs
      simp only [refWrites, configMapWrites, secretWrites, bind, Except.bind,
        getConfigMap_ok w c cm hcm, setEach_ok c m _ h,
        getSecret_ok w _ s hs2, setEach_ok _ _ _ (written_data c m _), written_written,
        written_namespace]

theorem getExternalConfig_ok (w : World) (c : ctx) (m : GoMap) (container : Container)
    (hf : container.fetchable w c.Namespace = true) (h : c.Env.Data = some m) :
    c.getExternalConfig w container
      = .ok (c.written m (externalWrites w c.Namespace container)) := by
  unfold ctx.getExternalConfig externalWrites
  refine foldlM_written _ (refWrites w c.Namespace)
    (fun r => r.fetchable w c.Namespace = true) c.Namespace ?_ container.EnvFrom c m rfl ?_ h
  · intro c2 m2 r hns hgood hd
    rw [← hns] at hgood ⊢
    exact envFrom_step_ok w c2 m2 r hgood hd
  · intro r hr
    exact List.all_eq_true.mp hf r hr

theorem processContainer_ok (w : World) (c : ctx) (m : GoMap) (container : Container)
    (hf : container.fetchable w c.Namespace = true) (h : c.Env.Data = some m) :
    c.processContainer w container
      = .ok (c.written m (containerWrites w c.Namespace container)) := by
  unfold ctx.processContainer containerWrites
  rw [getExternalConfig_ok w c m container hf h]
  simp only [bind, Except.bind]
  rw [getLocalEnv_ok _ _ container (written_data c m _), written_written]

/-- Processing a list of containers whose fetches succeed performs their writes in order. -/
theorem processAll_ok (w : World) (cs : List Container) (c : ctx) (m : GoMap)
    (hf : ∀ x ∈ cs, x.fetchable w c.Namespace = true) (h : c.Env.Data = some m) :
    cs.foldlM (fun c container => c.processContainer w container) c
      = .ok (c.written m (cs.flatMap (containerWrites w c.Namespace))) := by
  refine foldlM_written _ (containerWrites w c.Namespace)
    (fun x => x.fetchable w c.Namespace = true) c.Namespace ?_ cs c m rfl hf h
  intro c2 m2 x hns hgood hd
  rw [← hns] at hgood ⊢
  exact processContainer_ok w c2 m2 x hgood hd

theorem resolve_ok (w : World) (pods : List Pod) (c : ctx) (m : GoMap)
    (hf : ∀ x ∈ c.Containers ++ pods.flatMap Pod.Containers, x.fetchable w c.Namespace = true)
    (h : c.Env.Data = some m) :
    c.resolve w pods
      = .ok { c.written m (resolveWrites w c.Namespace c.Containers pods) with
              Containers := c.Containers ++ pods.flatMap Pod.Containers } := by
  unfold ctx.resolve
  induction pods generalizing c m with
  | nil =>
    simp only [List.foldlM_nil, resolveWrites, List.flatMap_nil, List.append_nil]
    rw [written_nil c m h]
    rfl
  | cons pod pods ih =>
    rw [List.foldlM_cons]
    have hproc := processAll_ok w (c.getContainers pod).Containers (c.getContainers pod) m
      (fun x hx => hf x (by
        simp only [ctx.getContainers, List.flatMap_cons, List.mem_append] at hx ⊢
        tauto)) h
    have hstep : (do
          let c := c.getContainers pod
          c.Containers.foldlM
            (fun c container => do
              let c ← c.getExternalConfig w container
              c.getLocalEnv container)
            c : Run ctx)
        = .ok ((c.getContainers pod).written m
            ((c.getContainers pod).Containers.flatMap (containerWrites w c.Namespace))) := hproc
    rw [hstep]
    have hnext := ih ((c.getContainers pod).written m
        ((c.getContainers pod).Containers.flatMap (containerWrites w c.Namespace)))
      (insertAll m ((c.getContainers pod).Containers.flatMap (containerWrites w c.Namespace)))
      (fun x hx => hf x (by
        simp only [ctx.getContainers, ctx.written, List.flatMap_cons, List.mem_append] at hx ⊢
        tauto)) rfl
    refine Eq.trans hnext ?_
    simp [ctx.written, ctx.getContainers, resolveWrites, insertAll_append, List.append_assoc]

/-- In the writes of the loop of `main`, every name is last written by the final
pass, which processes all accumulated containers once, in order. -/
theorem lastSet_resolveWrites (w : World) (ns : String) (pods : List Pod)
    (acc : List Container) (key : String) :
    lastSet (acc.flatMap (containerWrites w ns) ++ resolveWrites w ns acc pods) key
      = lastSet ((acc ++ pods.flatMap Pod.Containers).flatMap (containerWrites w ns)) key := by
  induction pods generalizing acc with
  | nil => simp [resolveWrites]
  | cons pod pods ih =>
    have h1 := ih (acc ++ pod.Containers)
    simp only [resolveWrites, List.flatMap_cons, lastSet_append, List.flatMap_append,
      List.append_assoc] at h1 ⊢
    rw [h1]
    cases lastSet ((pods.flatMap Pod.Containers).flatMap (containerWrites w ns)) key <;>
      cases lastSet (pod.Containers.flatMap (containerWrites w ns)) key <;>
      cases lastSet (acc.flatMap (containerWrites w ns)) key <;> simp

theorem lastSet_resolveWrites_nil (w : World) (ns : String) (pods : List Pod) (key : String) :
    lastSet (resolveWrites w ns [] pods) key
      = lastSet ((pods.flatMap Pod.Containers).flatMap (containerWrites w ns)) key := by
  simpa using lastSet_resolveWrites w ns pods [] key

theorem lastSet_of_not_mem (ws : List (String × String)) (key : String)
    (h : key ∉ ws.map Prod.fst) : lastSet ws key = none :=
  (lastSet_eq_none_iff ws key).mpr h

theorem lastSet_flatMap_none {α : Type} (wr : α → List (String × String)) (l : List α)
    (key : String) (h : ∀ x ∈ l, key ∉ (wr x).map Prod.fst) :
    lastSet (l.flatMap wr) key = none := by
  apply lastSet_of_not_mem
  simp only [List.mem_map, List.mem_flatMap, not_exists, not_and]
  rintro ⟨k, v⟩ ⟨x, hx, hkv⟩ rfl
  exact h x hx (List.mem_map.mpr ⟨(k, v), hkv, rfl⟩)

theorem lastSet_isSome (ws : List (String × String)) (key : String)
    (h : key ∈ ws.map Prod.fst) : ∃ v, lastSet ws key = some v := by
  cases hl : lastSet ws key with
  | none => exact absurd h ((lastSet_eq_none_iff ws key).mp hl)
  | some v => exact ⟨v, rfl⟩

theorem lastSet_mem (ws : List (String × String)) (key value : String)
    (h : lastSet ws key = some value) : (key, value) ∈ ws := by
  induction ws with
  | nil => simp [lastSet] at h
  | cons kv rest ih =>
    simp only [lastSet] at h
    cases hr : lastSet rest key with
    | some u =>
      rw [hr, Option.or_some] at h
      exact List.mem_cons_of_mem _ (ih (hr.trans h))
    | none =>
      rw [hr, Option.none_or] at h
      by_cases hk : kv.1 = key
      · simp only [hk, if_true, Option.some.injEq] at h
        obtain ⟨k, v⟩ := kv
        simp only at hk h
        subst hk h
        exact List.mem_cons_self _ _
      · simp [hk] at h

/-- A container whose inline declarations of `name` all carry `value`, and which
has one, declares `name` with `value`. -/
theorem declares_of_mem (container : Container) (name value : String)
    (hmem : (⟨name, value⟩ : EnvVar) ∈ container.Env)
    (hsame : ∀ e ∈ container.Env, e.Name = name → e.Value = value) :
    container.declares name value := by
  unfold Container.declares
  have hin : name ∈ (localWrites container).map Prod.fst := by
    simp only [localWrites, List.map_map, List.mem_map, Function.comp_apply]
    exact ⟨⟨name, value⟩, hmem, rfl⟩
  obtain ⟨u, hu⟩ := lastSet_isSome _ _ hin
  have hmem2 := lastSet_mem _ _ _ hu
  simp only [localWrites, List.mem_map, Prod.mk.injEq] at hmem2
  obtain ⟨e, he, hname, hval⟩ := hmem2
  rw [hu, ← hval, hsame e he hname]

/-! ## Precedence -/

/-- C2: for a container that declares `A` inline with value `v` and whose
`EnvFrom` list holds, at any position, a ConfigMap reference whose fetched map
supplies `A` with another value, `getExternalConfig` followed by `getLocalEnv`
(both succeed when the fetches of the container do) leaves `A` mapped to `v`. -/
theorem inline_overrides_external (w : World) (c : ctx) (m : GoMap) (container : Container)
    (r : EnvFromSource) (cm : String) (d : GoMap) (A v v0 : String)
    (hdata : c.Env.Data = some m)
    (hfetch : container.fetchable w c.Namespace = true)
    (_hr : r ∈ container.EnvFrom) (_hcm : r.ConfigMapRef = some cm)
    (_hd : w.configMaps c.Namespace cm = .ok d) (_hsup : d.lookup A = some v0) (_hne : v0 ≠ v)
    (hdecl : container.declares A v) :
    ∃ c1 c2 m2, c.getExternalConfig w container = .ok c1 ∧ c1.getLocalEnv container = .ok c2 ∧
      c2.Env.Data = some m2 ∧ m2.lookup A = some v := by
  refine ⟨_, _, _, getExternalConfig_ok w c m container hfetch hdata,
    getLocalEnv_ok _ _ container (written_data c m _), written_data _ _ _, ?_⟩
  rw [lookup_insertAll, hdecl]
  rfl

/-- C4: for a container whose `EnvFrom` list holds two ConfigMap references, the
earlier one supplying `A` with `v1` and the later one supplying `A` with `v2`
(the later one being the last reference that supplies `A`), and that has no inline
declaration of `A`, `getExternalConfig` leaves `A` mapped to `v2`, and so does the
`getLocalEnv` that follows. -/
theorem later_reference_wins (w : World) (c : ctx) (m : GoMap) (container : Container)
    (pre mid post : List EnvFromSource) (r1 r2 : EnvFromSource) (cm1 cm2 : String)
    (d1 d2 : GoMap) (A v1 v2 : String)
    (hdata : c.Env.Data = some m)
    (hfetch : container.fetchable w c.Namespace = true)
    (hfrom : container.EnvFrom = pre ++ r1 :: mid ++ r2 :: post)
    (_hr1 : r1.ConfigMapRef = some cm1) (_hd1 : w.configMaps c.Namespace cm1 = .ok d1)
    (_h1 : d1.lookup A = some v1)
    (hr2 : r2.ConfigMapRef = some cm2) (hd2 : w.configMaps c.Namespace cm2 = .ok d2)
    (h2 : d2.lookup A = some v2)
    (hsecret : A ∉ (secretWrites w c.Namespace r2).map Prod.fst)
    (hpost : ∀ r ∈ post, A ∉ (refWrites w c.Namespace r).map Prod.fst)
    (hinline : A ∉ (localWrites container).map Prod.fst) :
    ∃ c1 m1 c2 m2, c.getExternalConfig w container = .ok c1 ∧ c1.Env.Data = some m1 ∧
      m1.lookup A = some v2 ∧
      c1.getLocalEnv container = .ok c2 ∧ c2.Env.Data = some m2 ∧ m2.lookup A = some v2 := by
  have hext : lastSet (externalWrites w c.Namespace container) A = some v2 := by
    have hcmw : lastSet (configMapWrites w c.Namespace r2) A = some v2 := by
      simp [configMapWrites, hr2, World.configMapData, hd2, lastSet_pairs, h2]
    simp only [externalWrites, hfrom, List.flatMap_append, List.flatMap_cons, lastSet_append,
      lastSet_flatMap_none _ post A hpost, refWrites, lastSet_of_not_mem _ A hsecret, hcmw]
    rfl
  refine ⟨_, _, _, _, getExternalConfig_ok w c m container hfetch hdata, written_data _ _ _, ?_,
    getLocalEnv_ok _ _ container (written_data c m _), written_data _ _ _, ?_⟩
  · rw [lookup_insertAll, hext]; rfl
  · rw [lookup_insertAll, lastSet_of_not_mem _ A hinline, Option.none_or, lookup_insertAll, hext]
    rfl

/-- C3: when the containers that the loop of `main` processes hold `C1` before
`C2`, `C1` declares `A` with `v1`, `C2` declares `A` with `v2` and no container
after `C2` supplies `A`, the resolution succeeds (given that the fetches do) and
the final set maps `A` to `v2`. -/
theorem later_container_wins (w : World) (c : ctx) (m : GoMap) (pods : List Pod)
    (pre mid post : List Container) (C1 C2 : Container) (A v1 v2 : String)
    (hcs : c.Containers = []) (hdata : c.Env.Data = some m)
    (hfetch : ∀ x ∈ pods.flatMap Pod.Containers, x.fetchable w c.Namespace = true)
    (horder : pods.flatMap Pod.Containers = pre ++ C1 :: mid ++ C2 :: post)
    (_h1 : C1.declares A v1) (h2 : C2.declares A v2)
    (hpost : ∀ x ∈ post, ¬ x.supplies w c.Namespace A) :
    ∃ c2 m2, c.resolve w pods = .ok c2 ∧ c2.Env.Data = some m2 ∧ m2.lookup A = some v2 := by
  refine ⟨_, _, resolve_ok w pods c m (by simpa [hcs] using hfetch) hdata, rfl, ?_⟩
  rw [lookup_insertAll, hcs, lastSet_resolveWrites_nil, horder]
  have hC2 : lastSet (containerWrites w c.Namespace C2) A = some v2 := by
    unfold containerWrites
    rw [lastSet_append, show lastSet (localWrites C2) A = some v2 from h2]
    rfl
  simp only [List.flatMap_append, List.flatMap_cons, lastSet_append,
    lastSet_flatMap_none _ post A hpost, hC2]
  rfl

/-- C10: starting from a set with an initialised map and no accumulated
containers, when every fetch for the containers of the pods succeeds, the loop
of `main` (which processes the whole accumulated container list again after every
pod) and the processing of every container exactly once, in pod order and then
container order, both succeed and end with the same name-to-value mapping. -/
theorem resolve_refines_resolveOnce (w : World) (c : ctx) (m : GoMap) (pods : List Pod)
    (hcs : c.Containers = []) (hdata : c.Env.Data = some m)
    (hfetch : ∀ x ∈ pods.flatMap Pod.Containers, x.fetchable w c.Namespace = true) :
    ∃ c1 c2 m1 m2, c.resolve w pods = .ok c1 ∧ c.resolveOnce w pods = .ok c2 ∧
      c1.Env.Data = some m1 ∧ c2.Env.Data = some m2 ∧
      (∀ key, m1.lookup key = m2.lookup key) ∧ m1.entries.Perm m2.entries := by
  have hlook : ∀ key, (insertAll m (resolveWrites w c.Namespace c.Containers pods)).lookup key
      = (insertAll m ((pods.flatMap Pod.Containers).flatMap
          (containerWrites w c.Namespace))).lookup key := by
    intro key
    rw [lookup_insertAll, lookup_insertAll, hcs, lastSet_resolveWrites_nil]
  refine ⟨_, _, _, _, resolve_ok w pods c m (by simpa [hcs] using hfetch) hdata,
    processAll_ok w _ c m hfetch hdata, rfl, rfl, hlook, ?_⟩
  refine List.lookup_ext (AList.nodupKeys _) (AList.nodupKeys _) (fun x y => ?_)
  have := hlook x
  simp only [AList.lookup] at this
  show y ∈ List.dlookup x (insertAll m (resolveWrites w c.Namespace c.Containers pods)).entries ↔
    y ∈ List.dlookup x (insertAll m ((pods.flatMap Pod.Containers).flatMap
      (containerWrites w c.Namespace))).entries
  rw [this]

/-! ## The enumeration of a set -/

theorem mem_pairs (m : GoMap) (key value : String) :
    (key, value) ∈ pairs m ↔ m.lookup key = some value := by
  unfold pairs
  rw [← Option.mem_def, AList.mem_lookup_iff]
  constructor
  · rintro h
    obtain ⟨⟨k, v⟩, hkv, heq⟩ := List.mem_map.mp h
    simp only [Prod.mk.injEq] at heq
    obtain ⟨rfl, rfl⟩ := heq
    exact hkv
  · intro h
    exact List.mem_map.mpr ⟨⟨key, value⟩, h, rfl⟩

theorem nodup_pairs (m : GoMap) : (pairs m).Nodup := by
  unfold pairs
  refine List.Nodup.map ?_ m.nodupKeys.nodup
  rintro ⟨k1, v1⟩ ⟨k2, v2⟩ h
  simp only [Prod.mk.injEq] at h
  obtain ⟨rfl, rfl⟩ := h
  rfl

theorem toStringList_eq (e : envKV) (m : GoMap) (h : e.Data = some m) :
    e.toStringList = (pairs m).map entryText := by
  simp [envKV.toStringList, h, pairs, entryText, List.map_map, Function.comp_def]

/-- The entries of a map after a sequence of writes: one for every written
name, with the value of the most recent write, and the entries the map had for
the names that were not written. -/
theorem pairs_insertAll (m : GoMap) (ws : List (String × String)) :
    (pairs (insertAll m ws)).Perm
      ((ws.map Prod.fst).dedup.map (fun k => (k, (lastSet ws k).getD "")) ++
        (pairs m).filter (fun kv => kv.1 ∉ ws.map Prod.fst)) := by
  rw [List.perm_ext_iff_of_nodup (nodup_pairs _)]
  · rintro ⟨k, v⟩
    rw [mem_pairs, lookup_insertAll, List.mem_append, List.mem_filter, mem_pairs]
    by_cases hk : k ∈ ws.map Prod.fst
    · obtain ⟨u, hu⟩ := lastSet_isSome ws k hk
      simp only [hu, Option.or_some, Option.some.injEq, List.mem_map, List.mem_dedup,
        Prod.mk.injEq, hk, not_true_eq_false, decide_False, Bool.false_eq_true, and_false,
        or_false]
      constructor
      · rintro rfl
        exact ⟨k, List.mem_map.mp hk, rfl, by simp [hu]⟩
      · rintro ⟨k2, _, rfl, hv⟩
        simpa [hu] using hv
    · have hn := lastSet_of_not_mem ws k hk
      simp only [hn, Option.none_or, List.mem_map, List.mem_dedup, Prod.mk.injEq, hk,
        not_false_eq_true, decide_True, and_true]
      constructor
      · intro h; exact Or.inr h
      · rintro (⟨k2, hk2, rfl, _⟩ | h)
        · exact absurd (List.mem_map.mpr hk2) hk
        · exact h
  · refine List.Nodup.append ?_ ((nodup_pairs m).filter _) ?_
    · refine List.Nodup.map ?_ (List.nodup_dedup _)
      intro k1 k2 h
      simp only [Prod.mk.injEq] at h
      exact h.1
    · intro kv h1 h2
      obtain ⟨k, hk, rfl⟩ := List.mem_map.mp h1
      have := (List.mem_filter.mp h2).2
      simp only [decide_eq_true_eq] at this
      exact this (List.mem_dedup.mp hk)

theorem setMany_ok (calls : List (String × String)) (e : envKV) (m : GoMap)
    (h : e.Data = some m) :
    e.setMany calls
      = .ok { Keys := e.Keys ++ calls.map Prod.fst, Data := some (insertAll m calls) } := by
  unfold envKV.setMany
  induction calls generalizing e m with
  | nil =>
    obtain ⟨keys, data⟩ := e
    simp only at h
    simp [h, insertAll, pure, Except.pure]
  | cons kv rest ih =>
    rw [List.foldlM_cons, set_ok e m _ _ h]
    refine Eq.trans (ih _ (m.insert kv.1 kv.2) rfl) ?_
    simp [insertAll_cons]

/-- C1: on an `envKV` whose map is initialised, every finite sequence of `set`
calls succeeds, and the list `toStringList` then returns is, up to its order,
made of one entry for every distinct name that was set, which is the name, `=`
and the value of the most recent `set` call for that name, followed by the
entries of the names that no call has set. -/
theorem toStringList_after_sets (e : envKV) (m : GoMap) (calls : List (String × String))
    (h : e.Data = some m) :
    ∃ e2, e.setMany calls = .ok e2 ∧
      (∀ name ∈ calls.map Prod.fst, ∃ value, lastSet calls name = some value) ∧
      e2.toStringList.Perm
        ((calls.map Prod.fst).dedup.map (fun name => name ++ "=" ++ (lastSet calls name).getD "") ++
          ((pairs m).filter (fun kv => kv.1 ∉ calls.map Prod.fst)).map entryText) := by
  refine ⟨_, setMany_ok calls e m h, fun name hn => lastSet_isSome calls name hn, ?_⟩
  rw [toStringList_eq _ _ rfl]
  have hp := (pairs_insertAll m calls).map entryText
  simpa [entryText, List.map_map, Function.comp_def] using hp

/-! ## Failing fetches -/

/-- A loop whose step either performs writes or panics, panics when it meets an
element on which the step panics. -/
theorem foldlM_fails {α : Type} (step : ctx → α → Run ctx) (wr : α → List (String × String))
    (good : α → Prop) (ns : String)
    (hstep : ∀ (c : ctx) (m : GoMap) (x : α), c.Namespace = ns → good x → c.Env.Data = some m →
      step c x = .ok (c.written m (wr x)))
    (hbad : ∀ (c : ctx) (m : GoMap) (x : α), c.Namespace = ns → ¬ good x → c.Env.Data = some m →
      ∃ msg, step c x = .error (.panicked msg))
    (l : List α) (c : ctx) (m : GoMap) (hns : c.Namespace = ns) (h : c.Env.Data = some m)
    (hex : ∃ x ∈ l, ¬ good x) :
    ∃ msg, l.foldlM step c = .error (.panicked msg) := by
  induction l generalizing c m with
  | nil => simp at hex
  | cons y rest ih =>
    rw [List.foldlM_cons]
    by_cases hy : good y
    · rw [hstep c m y hns hy h]
      obtain ⟨x, hx, hxbad⟩ := hex
      have hxrest : x ∈ rest := by
        rcases List.mem_cons.mp hx with rfl | hr
        · exact absurd hy hxbad
        · exact hr
      exact ih (c.written m (wr y)) (insertAll m (wr y)) hns rfl ⟨x, hxrest, hxbad⟩
    · obtain ⟨msg, hmsg⟩ := hbad c m y hns hy h
      exact ⟨msg, by rw [hmsg]; rfl⟩

theorem getConfigMap_err (w : World) (c : ctx) (cm err : String)
    (h : w.configMaps c.Namespace cm = .error err) :
    c.getConfigMap w cm = .error (.panicked err) := by
  simp [ctx.getConfigMap, h, throw, throwThe, MonadExceptOf.throw]

theorem getSecret_err (w : World) (c : ctx) (s err : String)
    (h : w.secrets c.Namespace s = .error err) :
    c.getSecret w s = .error (.panicked err) := by
  simp [ctx.getSecret, h, throw, throwThe, MonadExceptOf.throw]

theorem toBool_false {α : Type} (x : Except String α) (h : x.toBool = false) :
    ∃ err, x = .error err := by
  cases x with
  | error err => exact ⟨err, rfl⟩
  | ok a => simp [Except.toBool] at h

/-- One iteration of the loop of `getExternalConfig` panics when a fetch of the entry fails. -/
theorem envFrom_step_fails (w : World) (c : ctx) (m : GoMap) (r : EnvFromSource)
    (hf : ¬ r.fetchable w c.Namespace = true) (h : c.Env.Data = some m) :
    ∃ msg, (do
      let c ← match r.ConfigMapRef with
        | none => pure c
        | some cm => do
          let d ← c.getConfigMap w cm
          c.setEach d
      match r.SecretRef with
        | none => pure c
        | some s => do
          let d ← c.getSecret w s
          c.setEach d : Run ctx)
      = .error (.panicked msg) := by
  obtain ⟨cmRef, sRef⟩ := r
  simp only [EnvFromSource.fetchable, Bool.and_eq_true, not_and_or, Bool.not_eq_true] at hf
  cases cmRef with
  | none =>
    cases sRef with
    | none => simp at hf
    | some s =>
      simp only [false_or, reduceCtorEq] at hf
      obtain ⟨err, herr⟩ := toBool_false _ hf
      exact ⟨err, by simp [pure, Except.pure, bind, Except.bind, getSecret_err w c s err herr]⟩
  | some cm =>
    cases hcm : (w.configMaps c.Namespace cm).toBool with
    | false =>
      obtain ⟨err, herr⟩ := toBool_false _ hcm
      exact ⟨err, by simp [bind, Except.bind, getConfigMap_err w c cm err herr]⟩
    | true =>
      cases sRef with
      | none => simp [hcm] at hf
      | some s =>
        simp only [hcm, Bool.true_eq_false, false_or] at hf
        obtain ⟨err, herr⟩ := toBool_false _ hf
        have herr2 : w.secrets (c.written m (pairs (w.configMapData c.Namespace cm))).Namespace s
            = .error err := herr
        exact ⟨err, by
          simp only [bind, Except.bind, getConfigMap_ok w c cm hcm, setEach_ok c m _ h,
            getSecret_err w _ s err herr2]⟩

theorem getExternalConfig_fails (w : World) (c : ctx) (m : GoMap) (container : Container)
    (hf : ¬ container.fetchable w c.Namespace = true) (h : c.Env.Data = some m) :
    ∃ msg, c.getExternalConfig w container = .error (.panicked msg) := by
  unfold ctx.getExternalConfig
  refine foldlM_fails _ (refWrites w c.Namespace)
    (fun r => r.fetchable w c.Namespace = true) c.Namespace ?_ ?_ container.EnvFrom c m rfl h ?_
  · intro c2 m2 r hns hgood hd
    rw [← hns] at hgood ⊢
    exact envFrom_step_ok w c2 m2 r hgood hd
  · intro c2 m2 r hns hbad hd
    rw [← hns] at hbad
    exact envFrom_step_fails w c2 m2 r hbad hd
  · by_contra hall
    apply hf
    simp only [not_exists, not_and, not_not] at hall
    exact List.all_eq_true.mpr hall

theorem processContainer_fails (w : World) (c : ctx) (m : GoMap) (container : Container)
    (hf : ¬ container.fetchable w c.Namespace = true) (h : c.Env.Data = some m) :
    ∃ msg, c.processContainer w container = .error (.panicked msg) := by
  obtain ⟨msg, hmsg⟩ := getExternalConfig_fails w c m container hf h
  exact ⟨msg, by unfold ctx.processContainer; rw [hmsg]; rfl⟩

theorem processAll_fails (w : World) (cs : List Container) (c : ctx) (m : GoMap)
    (hex : ∃ x ∈ cs, ¬ x.fetchable w c.Namespace = true) (h : c.Env.Data = some m) :
    ∃ msg, cs.foldlM (fun c container => c.processContainer w container) c
      = .error (.panicked msg) := by
  refine foldlM_fails _ (containerWrites w c.Namespace)
    (fun x => x.fetchable w c.Namespace = true) c.Namespace ?_ ?_ cs c m rfl h hex
  · intro c2 m2 x hns hgood hd
    rw [← hns] at hgood ⊢
    exact processContainer_ok w c2 m2 x hgood hd
  · intro c2 m2 x hns hbad hd
    rw [← hns] at hbad
    exact processContainer_fails w c2 m2 x hbad hd

/-- The loop of `main` panics when a fetch for a container of the pods fails. -/
theorem resolve_fails (w : World) (pods : List Pod) (c : ctx) (m : GoMap)
    (hex : ∃ x ∈ pods.flatMap Pod.Containers, ¬ x.fetchable w c.Namespace = true)
    (h : c.Env.Data = some m) :
    ∃ msg, c.resolve w pods = .error (.panicked msg) := by
  unfold ctx.resolve
  induction pods generalizing c m with
  | nil => simp at hex
  | cons pod pods ih =>
    rw [List.foldlM_cons]
    by_cases hall : ∀ x ∈ (c.getContainers pod).Containers, x.fetchable w c.Namespace = true
    · have hstep : (do
            let c := c.getContainers pod
            c.Containers.foldlM
              (fun c container => do
                let c ← c.getExternalConfig w container
                c.getLocalEnv container)
              c : Run ctx)
          = .ok ((c.getContainers pod).written m
              ((c.getContainers pod).Containers.flatMap (containerWrites w c.Namespace))) :=
        processAll_ok w (c.getContainers pod).Containers (c.getContainers pod) m hall h
      rw [hstep]
      obtain ⟨x, hx, hxbad⟩ := hex
      have hxrest : x ∈ pods.flatMap Pod.Containers := by
        simp only [List.flatMap_cons, List.mem_append] at hx
        rcases hx with hx | hx
        · exact absurd (hall x (by simp [ctx.getContainers, hx])) hxbad
        · exact hx
      exact ih _ _ ⟨x, hxrest, hxbad⟩ rfl
    · simp only [not_forall] at hall
      obtain ⟨x, hx, hxbad⟩ := hall
      obtain ⟨msg, hmsg⟩ := processAll_fails w (c.getContainers pod).Containers
        (c.getContainers pod) m ⟨x, hx, hxbad⟩ h
      have hstep : (do
            let c := c.getContainers pod
            c.Containers.foldlM
              (fun c container => do
                let c ← c.getExternalConfig w container
                c.getLocalEnv container)
              c : Run ctx)
          = .error (.panicked msg) := hmsg
      exact ⟨msg, by rw [hstep]; rfl⟩

theorem setFromHost_ok (w : World) (e : envKV) (m : GoMap) (key : String)
    (h : e.Data = some m) :
    e.setFromHost w key = .ok { Keys := e.Keys, Data := some (m.insert key (w.Getenv key)) } := by
  simp [envKV.setFromHost, set_ok e m _ _ h, bind, Except.bind, pure, Except.pure]

theorem initialize_ok (w : World) (e : envKV) :
    envKV.initialize w e = .ok { Keys := [], Data := some (seededMap w) } := by
  have h1 := setFromHost_ok w { Keys := [], Data := some ∅ } ∅ "TERM" rfl
  have h2 := setFromHost_ok w { Keys := [], Data := some ((∅ : GoMap).insert "TERM" (w.Getenv "TERM")) }
    _ "LANG" rfl
  unfold envKV.initialize
  simp only [bind, Except.bind, h1, h2, seededMap]

/-- With a cluster configuration and at least one selected pod, `main` seeds the
set, runs the resolution loop and calls `openShell`. -/
theorem mainBody_eq (w : World) (flags : Flags) (hb : w.buildConfig flags.kubeconfig = none)
    (hn : w.newForConfig = none)
    (hpods : (startCtx flags).getPods w flags.podSelector ≠ []) :
    mainBody w flags =
      (do
        let c ← (seededCtx w flags).resolve w ((startCtx flags).getPods w flags.podSelector)
        openShell w [] c.Env : Run (Option String)) := by
  have hlen : ¬ ((startCtx flags).getPods w flags.podSelector).length = 0 := by
    rwa [List.length_eq_zero]
  unfold mainBody
  simp only [hb, hn, hlen, if_false, initialize_ok, bind, Except.bind, pure, Except.pure]
  rfl

/-- C5: when a fetch fails for a reference of a container of a selected pod
(a ConfigMap or a Secret, at any position of an `EnvFrom` list), `main` ends in a
panic: it does not reach `openShell`, so no shell is launched and no environment
is handed to the launcher. -/
theorem fetch_failure_aborts (w : World) (flags : Flags)
    (hfail : ∃ pod ∈ (startCtx flags).getPods w flags.podSelector,
      ∃ container ∈ pod.Containers, ∃ r ∈ container.EnvFrom,
        r.fetchFails w flags.Namespace = true) :
    ∃ msg, main w flags = .panicked msg := by
  obtain ⟨pod, hpod, container, hcont, r, hr, hrf⟩ := hfail
  cases hb : w.buildConfig flags.kubeconfig with
  | some err =>
    exact ⟨err, by
      simp [main, mainBody, hb, throw, throwThe, MonadExceptOf.throw, bind, Except.bind]⟩
  | none =>
    cases hn : w.newForConfig with
    | some err =>
      exact ⟨err, by
        simp [main, mainBody, hb, hn, throw, throwThe, MonadExceptOf.throw, bind, Except.bind,
          pure, Except.pure]⟩
    | none =>
      have hpods : (startCtx flags).getPods w flags.podSelector ≠ [] :=
        List.ne_nil_of_mem hpod
      have hbad : ¬ container.fetchable w flags.Namespace = true := by
        intro hall
        have := List.all_eq_true.mp hall r hr
        simp [EnvFromSource.fetchFails, this] at hrf
      obtain ⟨msg, hmsg⟩ := resolve_fails w ((startCtx flags).getPods w flags.podSelector)
        (seededCtx w flags) (seededMap w)
        ⟨container, List.mem_flatMap.mpr ⟨pod, hpod, hcont⟩, hbad⟩ rfl
      refine ⟨msg, ?_⟩
      unfold main
      rw [mainBody_eq w flags hb hn hpods, hmsg]
      rfl

/-! ## The ordered variable set -/

/-- C1, at a concrete input: the calls `A=1`, `B=2`, `A=3` on the empty set
give the entries `B=2` and `A=3`. -/
theorem toStringList_after_sets_witness :
    ∃ e2, emptySet.setMany [("A", "1"), ("B", "2"), ("A", "3")] = .ok e2 ∧
      (∀ name ∈ [("A", "1"), ("B", "2"), ("A", "3")].map Prod.fst,
        ∃ value, lastSet [("A", "1"), ("B", "2"), ("A", "3")] name = some value) ∧
      e2.toStringList.Perm
        (([("A", "1"), ("B", "2"), ("A", "3")].map Prod.fst).dedup.map
            (fun name => name ++ "=" ++ (lastSet [("A", "1"), ("B", "2"), ("A", "3")] name).getD "") ++
          ((pairs ∅).filter
            (fun kv => kv.1 ∉ [("A", "1"), ("B", "2"), ("A", "3")].map Prod.fst)).map entryText) :=
  toStringList_after_sets emptySet ∅ [("A", "1"), ("B", "2"), ("A", "3")] rfl

/-- C6, as stated, fails: `set` of a name that `Keys` already holds appends the
name again, so `Keys` changes and holds the name twice. -/
theorem set_duplicates_key :
    ∃ e2, envKV.set { Keys := ["A"], Data := some (AList.singleton "A" "1") } "A" "2" = .ok e2 ∧
      e2.Keys = ["A", "A"] ∧ e2.Keys ≠ ["A"] ∧ ¬ e2.Keys.Nodup ∧
      (∃ e3, emptySet.setMany [("A", "1"), ("A", "2")] = .ok e3 ∧ ¬ e3.Keys.Nodup) := by
  refine ⟨_, rfl, rfl, by decide, by decide, _, rfl, by decide⟩

/-- C6, amended: on a set whose map is initialised, `set` appends the name to
`Keys` whether or not `Keys` holds it already, so that the name occurs once more
than before; in `Data` it creates or overwrites the entry of the name and leaves
the entries of the other names as they were. -/
theorem set_appends_and_overwrites (e : envKV) (m : GoMap) (key value : String)
    (h : e.Data = some m) :
    ∃ e2 m2, e.set key value = .ok e2 ∧ e2.Keys = e.Keys ++ [key] ∧
      e2.Keys.count key = e.Keys.count key + 1 ∧
      e2.Data = some m2 ∧ m2.lookup key = some value ∧
      (∀ other, other ≠ key → m2.lookup other = m.lookup other) ∧
      (∀ name, name ∈ m2 ↔ name = key ∨ name ∈ m) := by
  refine ⟨_, _, set_ok e m key value h, rfl, ?_, rfl, AList.lookup_insert m, ?_, ?_⟩
  · simp
  · intro other hne
    exact AList.lookup_insert_ne hne
  · intro name
    exact AList.mem_insert m

/-- C6 amended, at a concrete input: `set("A", "2")` on a set that holds `A=1`. -/
theorem set_appends_and_overwrites_witness :
    ∃ e2 m2, envKV.set { Keys := ["A"], Data := some (AList.singleton "A" "1") } "A" "2" = .ok e2 ∧
      e2.Keys = ["A"] ++ ["A"] ∧
      e2.Keys.count "A" = ["A"].count "A" + 1 ∧
      e2.Data = some m2 ∧ m2.lookup "A" = some "2" ∧
      (∀ other, other ≠ "A" → m2.lookup other = (AList.singleton "A" "1" : GoMap).lookup other) ∧
      (∀ name, name ∈ m2 ↔ name = "A" ∨ name ∈ (AList.singleton "A" "1" : GoMap)) :=
  set_appends_and_overwrites { Keys := ["A"], Data := some (AList.singleton "A" "1") }
    (AList.singleton "A" "1") "A" "2" rfl

/-- C7 fails on the code: after `initialize`, on every host, `Data` holds `TERM`
and `LANG` while `Keys` is empty, because `setFromHost` has a value receiver and
its append to `Keys` is lost. -/
theorem initialize_loses_seeded_keys (w : World) (e : envKV) :
    ∃ e2 m2, envKV.initialize w e = .ok e2 ∧ e2.Keys = [] ∧ e2.Data = some m2 ∧
      "TERM" ∈ m2 ∧ "LANG" ∈ m2 ∧ "TERM" ∉ e2.Keys ∧ "LANG" ∉ e2.Keys := by
  refine ⟨_, _, initialize_ok w e, rfl, rfl, ?_, ?_, ?_, ?_⟩
  · rw [seededMap, AList.mem_insert, AList.mem_insert]
    exact Or.inr (Or.inl rfl)
  · rw [seededMap, AList.mem_insert]
    exact Or.inl rfl
  · simp
  · simp

/-- C8: on a set whose map is initialised, `setFromHost(name)` succeeds and maps
the name to the empty string when the host environment lacks it, and to the
host's value when the host has it; and `initialize` gives `TERM` and `LANG` an
entry in the map on every host. -/
theorem setFromHost_maps_name (w : World) (e : envKV) (m : GoMap) (key : String)
    (h : e.Data = some m) :
    ∃ e2 m2, e.setFromHost w key = .ok e2 ∧ e2.Data = some m2 ∧
      (w.environ key = none → m2.lookup key = some "") ∧
      (∀ value, w.environ key = some value → m2.lookup key = some value) ∧
      (∀ e0, ∃ e1 m1, envKV.initialize w e0 = .ok e1 ∧ e1.Data = some m1 ∧
        m1.lookup "TERM" = some (w.Getenv "TERM") ∧
        m1.lookup "LANG" = some (w.Getenv "LANG")) := by
  refine ⟨_, _, setFromHost_ok w e m key h, rfl, ?_, ?_, ?_⟩
  · intro hnone
    simp [World.Getenv, hnone]
  · intro value hsome
    simp [World.Getenv, hsome]
  · intro e0
    refine ⟨_, _, initialize_ok w e0, rfl, ?_, ?_⟩
    · rw [seededMap, AList.lookup_insert_ne (by decide), AList.lookup_insert]
    · rw [seededMap, AList.lookup_insert]

/-- C8, at a concrete input: `setFromHost("LANG")` on a host without `LANG`. -/
theorem setFromHost_maps_name_witness :
    (demoWorld []).environ "LANG" = none ∧
    ∃ e2 m2, emptySet.setFromHost (demoWorld []) "LANG" = .ok e2 ∧ e2.Data = some m2 ∧
      ((demoWorld []).environ "LANG" = none → m2.lookup "LANG" = some "") ∧
      (∀ value, (demoWorld []).environ "LANG" = some value → m2.lookup "LANG" = some value) ∧
      (∀ e0, ∃ e1 m1, envKV.initialize (demoWorld []) e0 = .ok e1 ∧ e1.Data = some m1 ∧
        m1.lookup "TERM" = some ((demoWorld []).Getenv "TERM") ∧
        m1.lookup "LANG" = some ((demoWorld []).Getenv "LANG")) :=
  ⟨by decide, setFromHost_maps_name (demoWorld []) emptySet ∅ "LANG" rfl⟩

/-! ## Precedence, at concrete inputs -/

/-- C2, at a concrete input: `webContainer` declares `A=1` and references the
ConfigMap `base`, which supplies `A=0`; the result maps `A` to `1`. -/
theorem inline_overrides_external_witness :
    ∃ c1 c2 m2, emptyCtx.getExternalConfig (demoWorld []) webContainer = .ok c1 ∧
      c1.getLocalEnv webContainer = .ok c2 ∧ c2.Env.Data = some m2 ∧ m2.lookup "A" = some "1" :=
  inline_overrides_external (demoWorld []) emptyCtx ∅ webContainer ⟨some "base", none⟩ "base"
    (AList.singleton "A" "0") "A" "1" "0" rfl (by decide) (by decide) rfl rfl (by decide)
    (by decide) (by decide)

/-- C4, at a concrete input: `layeredContainer` references `one` (`A=1`) and then
`two` (`A=2`); the result maps `A` to `2`. -/
theorem later_reference_wins_witness :
    ∃ c1 m1 c2 m2, emptyCtx.getExternalConfig (demoWorld []) layeredContainer = .ok c1 ∧
      c1.Env.Data = some m1 ∧ m1.lookup "A" = some "2" ∧
      c1.getLocalEnv layeredContainer = .ok c2 ∧ c2.Env.Data = some m2 ∧
      m2.lookup "A" = some "2" :=
  later_reference_wins (demoWorld []) emptyCtx ∅ layeredContainer [] [] []
    ⟨some "one", none⟩ ⟨some "two", none⟩ "one" "two" (AList.singleton "A" "1")
    (AList.singleton "A" "2") "A" "1" "2" rfl (by decide) rfl rfl rfl (by decide) rfl rfl
    (by decide) (by decide) (by decide) (by decide)

/-- C3, at a concrete input: a pod with `webContainer` (`A=1`) and then
`sidecarContainer` (`A=2`); the final set maps `A` to `2`. -/
theorem later_container_wins_witness :
    ∃ c2 m2, emptyCtx.resolve (demoWorld []) [⟨[webContainer, sidecarContainer]⟩] = .ok c2 ∧
      c2.Env.Data = some m2 ∧ m2.lookup "A" = some "2" :=
  later_container_wins (demoWorld []) emptyCtx ∅ [⟨[webContainer, sidecarContainer]⟩]
    [] [] [] webContainer sidecarContainer "A" "1" "2" rfl rfl (by decide) rfl (by decide)
    (by decide) (by decide)

/-- C10, at a concrete input: two pods, the first with `webContainer` and the
second with `sidecarContainer` and `layeredContainer`. -/
theorem resolve_refines_resolveOnce_witness :
    ∃ c1 c2 m1 m2,
      emptyCtx.resolve (demoWorld [])
          [⟨[webContainer]⟩, ⟨[sidecarContainer, layeredContainer]⟩] = .ok c1 ∧
      emptyCtx.resolveOnce (demoWorld [])
          [⟨[webContainer]⟩, ⟨[sidecarContainer, layeredContainer]⟩] = .ok c2 ∧
      c1.Env.Data = some m1 ∧ c2.Env.Data = some m2 ∧
      (∀ key, m1.lookup key = m2.lookup key) ∧ m1.entries.Perm m2.entries :=
  resolve_refines_resolveOnce (demoWorld []) emptyCtx ∅
    [⟨[webContainer]⟩, ⟨[sidecarContainer, layeredContainer]⟩] rfl rfl (by decide)

/-! ## The run of `main`, at concrete inputs -/

/-- C5, at a concrete input: the selected pod has `brokenContainer`, whose second
reference of three cannot be fetched; `main` panics. -/
theorem fetch_failure_aborts_witness :
    (⟨none, some "missing"⟩ : EnvFromSource).fetchFails (demoWorld [⟨[brokenContainer]⟩])
        demoFlags.Namespace = true ∧
    ∃ msg, main (demoWorld [⟨[brokenContainer]⟩]) demoFlags = .panicked msg :=
  ⟨by decide, fetch_failure_aborts (demoWorld [⟨[brokenContainer]⟩]) demoFlags (by decide)⟩

/-- In in-place replacement mode, `openShell` returns the error of a failed lookup
of the shell executable. -/
theorem openShell_lookPath_failure (w : World) (args : List String) (env : envKV) (err : String)
    (hmode : supportsExecSyscall w = true)
    (hlook : w.lookPath (w.Getenv "SHELL") = .error err) :
    openShell w args env
      = .ok (some ("couldn't find the executable '" ++ w.Getenv "SHELL" ++ "': " ++ err)) := by
  simp [openShell, execSyscall, hmode, hlook, pure, Except.pure]

/-- In in-place replacement mode, a run of `main` that resolves the environment
and then does not find the shell executable returns from `main`: the error is
discarded and the exit status is 0. -/
theorem main_returns_when_shell_missing (w : World) (flags : Flags) (err : String)
    (hb : w.buildConfig flags.kubeconfig = none) (hn : w.newForConfig = none)
    (hpods : (startCtx flags).getPods w flags.podSelector ≠ [])
    (hfetch : ∀ x ∈ ((startCtx flags).getPods w flags.podSelector).flatMap Pod.Containers,
      x.fetchable w flags.Namespace = true)
    (hmode : supportsExecSyscall w = true)
    (hlook : w.lookPath (w.Getenv "SHELL") = .error err) :
    main w flags
        = .returned (some ("couldn't find the executable '" ++ w.Getenv "SHELL" ++ "': " ++ err)) ∧
      (main w flags).exitStatus = some 0 := by
  have hres := resolve_ok w ((startCtx flags).getPods w flags.podSelector) (seededCtx w flags)
    (seededMap w) (by simpa [seededCtx] using hfetch) rfl
  have hmain : main w flags
      = .returned (some ("couldn't find the executable '" ++ w.Getenv "SHELL" ++ "': " ++ err)) := by
    unfold main
    rw [mainBody_eq w flags hb hn hpods, hres]
    simp only [bind, Except.bind]
    rw [openShell_lookPath_failure w _ _ err hmode hlook]
  exact ⟨hmain, by rw [hmain]; rfl⟩

/-- C9 fails on the code: on Linux with `SHELL=/bin/zsh` and no such executable,
for a pod with one container and no reference, `main` attempts no process
replacement and returns; the error of `openShell` is discarded and the exit
status is 0. -/
theorem shell_not_found_exits_zero :
    supportsExecSyscall (demoWorld [⟨[plainContainer]⟩]) = true ∧
    main (demoWorld [⟨[plainContainer]⟩]) demoFlags
      = .returned (some
          "couldn't find the executable '/bin/zsh': executable file not found in $PATH") ∧
    (main (demoWorld [⟨[plainContainer]⟩]) demoFlags).exitStatus = some 0 := by
  refine ⟨by decide, by decide, by decide⟩

end Skripture
